import Mathlib

/-!
Verification of the SFTP client core of `vscode-deploy-reloaded`
(`src/clients/sftp.ts`) against its natural-language specification.

The TypeScript source is shallowly embedded: pure computations become Lean
functions, the stateful upload path becomes explicit state passing over a
session-state record, and the effectful collaborators (transport, logging
sink, temp-file provider) are represented by explicit outcome records and
event traces.  Helper functions from the repository's `helpers` module are
not part of the provided sources; where a definition models one of them it
is marked `Modelled from the spec:` in its doc comment.
-/

namespace SftpSpec

/-- A path separator character: the client accepts both `/` and `\`
and normalizes everything to forward slashes. -/
def isSep (c : Char) : Bool := c == '/' || c == '\\'

/-- Split a character list at separator characters, keeping empty pieces
(the piece before a leading separator, between doubled separators, and
after a trailing separator are all `[]`). -/
def splitAll : List Char → List (List Char)
  | [] => [[]]
  | c :: cs =>
      if isSep c then [] :: splitAll cs
      else
        match splitAll cs with
        | [] => [[c]]
        | s :: rest => (c :: s) :: rest

/-- The non-empty path segments of a character list. -/
def segsL (cs : List Char) : List (List Char) :=
  (splitAll cs).filter (fun s => !s.isEmpty)

/-- Join segments with single forward slashes. -/
def joinSegs : List (List Char) → List Char
  | [] => []
  | [s] => s
  | s :: ss => s ++ '/' :: joinSegs ss

/-- Normalization on character lists: split into segments, drop empty
segments, rejoin with single `/`. -/
def normL (cs : List Char) : List Char :=
  joinSegs (segsL cs)

/-- Modelled from the spec: `deploy_helpers.normalizePath` is part of the
repository's `helpers` module, which is not among the provided sources.
Per the spec (section 4.1) the normalizer accepts absolute or relative
input with either separator and produces the path with redundant
separators collapsed, ready to be rooted by a single prepended `/`
(hence no leading or trailing separator). -/
def normalizePath (s : String) : String :=
  ⟨normL s.data⟩

/-- `toSFTPPath` from `src/clients/sftp.ts`:
`'/' + deploy_helpers.normalizePath(path)`. -/
def toSFTPPath (s : String) : String :=
  "/" ++ normalizePath s

/-- No two adjacent characters are both separators. -/
def noDoubleSep : List Char → Bool
  | a :: b :: rest => (!(isSep a && isSep b)) && noDoubleSep (b :: rest)
  | _ => true

/-- The list is empty or its first character is not a separator. -/
def headNotSep : List Char → Bool
  | [] => true
  | c :: _ => !isSep c

/-! ### Lemmas about the path normalizer -/

theorem splitAll_ne_nil (cs : List Char) : splitAll cs ≠ [] := by
  induction cs with
  | nil => simp [splitAll]
  | cons c cs ih =>
      simp only [splitAll]
      split
      · simp
      · cases h : splitAll cs with
        | nil => simp
        | cons s rest => simp

theorem mem_splitAll_not_sep (cs : List Char) :
    ∀ s ∈ splitAll cs, ∀ c ∈ s, isSep c = false := by
  induction cs with
  | nil =>
      intro s hs c hc
      simp [splitAll] at hs
      subst hs
      simp at hc
  | cons a cs ih =>
      intro s hs c hc
      simp only [splitAll] at hs
      by_cases ha : isSep a
      · simp [ha] at hs
        rcases hs with hs | hs
        · subst hs; simp at hc
        · exact ih s hs c hc
      · simp [ha] at hs
        cases h : splitAll cs with
        | nil => exact absurd h (splitAll_ne_nil cs)
        | cons t rest =>
            rw [h] at hs
            simp at hs
            rcases hs with hs | hs
            · subst hs
              simp at hc
              rcases hc with hc | hc
              · subst hc
                simpa using ha
              · exact ih t (by simp [h]) c hc
            · exact ih s (by simp [h, hs]) c hc

theorem segsL_good (cs : List Char) :
    ∀ s ∈ segsL cs, s ≠ [] ∧ ∀ c ∈ s, isSep c = false := by
  intro s hs
  simp only [segsL, List.mem_filter] at hs
  refine ⟨?_, mem_splitAll_not_sep cs s hs.1⟩
  intro hnil
  subst hnil
  simp at hs

theorem splitAll_sep_cons {c : Char} (hc : isSep c = true) (cs : List Char) :
    splitAll (c :: cs) = [] :: splitAll cs := by
  simp [splitAll, hc]

theorem segsL_sep_cons {c : Char} (hc : isSep c = true) (cs : List Char) :
    segsL (c :: cs) = segsL cs := by
  simp [segsL, splitAll_sep_cons hc]

theorem splitAll_cons_not_sep {x : Char} (hx : isSep x = false) (l : List Char) :
    splitAll (x :: l) =
      match splitAll l with
      | [] => [[x]]
      | s :: rest => (x :: s) :: rest := by
  simp [splitAll, hx]

theorem splitAll_append_sep {c : Char} (hc : isSep c = true) (a z : List Char) :
    splitAll (a ++ c :: z) = splitAll a ++ splitAll z := by
  induction a with
  | nil =>
      rw [List.nil_append, splitAll_sep_cons hc]
      rfl
  | cons x a ih =>
      by_cases hx : isSep x
      · rw [List.cons_append, splitAll_sep_cons hx, ih, splitAll_sep_cons hx]
        rfl
      · have hx' : isSep x = false := by simpa using hx
        rw [List.cons_append, splitAll_cons_not_sep hx', ih, splitAll_cons_not_sep hx']
        cases h : splitAll a with
        | nil => exact absurd h (splitAll_ne_nil a)
        | cons s rest => simp

theorem segsL_append_sep {c : Char} (hc : isSep c = true) (a z : List Char) :
    segsL (a ++ c :: z) = segsL a ++ segsL z := by
  simp [segsL, splitAll_append_sep hc, List.filter_append]

theorem splitAll_sepFree (s : List Char) (h : ∀ c ∈ s, isSep c = false) :
    splitAll s = [s] := by
  induction s with
  | nil => simp [splitAll]
  | cons c cs ih =>
      have hc : isSep c = false := h c (by simp)
      simp only [splitAll]
      rw [if_neg (by simp [hc])]
      rw [ih (fun d hd => h d (by simp [hd]))]

theorem segsL_sepFree (s : List Char) (h : ∀ c ∈ s, isSep c = false) :
    segsL s = if s.isEmpty then [] else [s] := by
  rw [segsL, splitAll_sepFree s h]
  cases s <;> simp

theorem segsL_joinSegs (L : List (List Char))
    (h : ∀ s ∈ L, s ≠ [] ∧ ∀ c ∈ s, isSep c = false) :
    segsL (joinSegs L) = L := by
  induction L with
  | nil => simp [joinSegs, segsL, splitAll]
  | cons s ss ih =>
      cases ss with
      | nil =>
          have hs := h s (by simp)
          simp only [joinSegs]
          rw [segsL_sepFree s hs.2]
          have : ¬ s.isEmpty := by
            cases s with
            | nil => exact absurd rfl hs.1
            | cons a b => simp
          simp [this]
      | cons t ts =>
          have hs := h s (by simp)
          have hgood : ∀ u ∈ t :: ts, u ≠ [] ∧ ∀ c ∈ u, isSep c = false := by
            intro u hu
            exact h u (by simp [hu])
          have hmain : joinSegs (s :: t :: ts) = s ++ '/' :: joinSegs (t :: ts) := rfl
          rw [hmain, segsL_append_sep (by simp [isSep]) s (joinSegs (t :: ts))]
          rw [segsL_sepFree s hs.2, ih hgood]
          have : ¬ s.isEmpty := by
            cases s with
            | nil => exact absurd rfl hs.1
            | cons a b => simp
          simp [this]

theorem segsL_normL (cs : List Char) : segsL (normL cs) = segsL cs := by
  rw [normL, segsL_joinSegs (segsL cs) (segsL_good cs)]

theorem segsL_slash_cons (cs : List Char) : segsL ('/' :: cs) = segsL cs :=
  segsL_sep_cons (by simp [isSep]) cs

theorem noDoubleSep_sepFree_append (s x : List Char)
    (h : ∀ c ∈ s, isSep c = false) :
    noDoubleSep (s ++ x) = noDoubleSep x := by
  induction s with
  | nil => simp
  | cons c cs ih =>
      have hc : isSep c = false := h c (by simp)
      have ihh := ih (fun d hd => h d (by simp [hd]))
      rw [List.cons_append]
      cases hcs : cs ++ x with
      | nil =>
          obtain ⟨h1, h2⟩ := List.append_eq_nil.mp hcs
          subst h1
          subst h2
          simp [noDoubleSep]
      | cons b r =>
          have h1 : noDoubleSep (c :: b :: r)
              = ((!(isSep c && isSep b)) && noDoubleSep (b :: r)) := rfl
          rw [h1, hc]
          simp only [Bool.false_and, Bool.not_false, Bool.true_and]
          rw [← hcs, ihh]

theorem headNotSep_joinSegs (L : List (List Char))
    (h : ∀ s ∈ L, s ≠ [] ∧ ∀ c ∈ s, isSep c = false) :
    headNotSep (joinSegs L) = true := by
  cases L with
  | nil => simp [joinSegs, headNotSep]
  | cons s ss =>
      have hs := h s (by simp)
      cases s with
      | nil => exact absurd rfl hs.1
      | cons c cs =>
          have hc : isSep c = false := hs.2 c (by simp)
          cases ss with
          | nil => simp [joinSegs, headNotSep, hc]
          | cons t ts => simp [joinSegs, headNotSep, hc]

theorem noDoubleSep_slash_joinSegs (L : List (List Char))
    (h : ∀ s ∈ L, s ≠ [] ∧ ∀ c ∈ s, isSep c = false) :
    noDoubleSep ('/' :: joinSegs L) = true := by
  induction L with
  | nil => simp [joinSegs, noDoubleSep]
  | cons s ss ih =>
      have hs := h s (by simp)
      cases ss with
      | nil =>
          have hjoin : joinSegs [s] = s := rfl
          rw [hjoin]
          cases s with
          | nil => exact absurd rfl hs.1
          | cons c cs =>
              have hc : isSep c = false := hs.2 c (by simp)
              have : noDoubleSep ('/' :: c :: cs) = noDoubleSep (c :: cs) := by
                simp [noDoubleSep, hc]
              rw [this]
              have : noDoubleSep ((c :: cs) ++ ([] : List Char)) = noDoubleSep ([] : List Char) :=
                noDoubleSep_sepFree_append (c :: cs) [] hs.2
              simpa [noDoubleSep] using this
      | cons t ts =>
          have hgood : ∀ u ∈ t :: ts, u ≠ [] ∧ ∀ c ∈ u, isSep c = false := by
            intro u hu
            exact h u (by simp [hu])
          have hjoin : joinSegs (s :: t :: ts) = s ++ '/' :: joinSegs (t :: ts) := rfl
          rw [hjoin]
          cases s with
          | nil => exact absurd rfl hs.1
          | cons c cs =>
              have hc : isSep c = false := hs.2 c (by simp)
              have h1 : noDoubleSep ('/' :: (c :: cs) ++ '/' :: joinSegs (t :: ts))
                  = noDoubleSep ((c :: cs) ++ '/' :: joinSegs (t :: ts)) := by
                simp [noDoubleSep, hc]
              have h2 : noDoubleSep ((c :: cs) ++ '/' :: joinSegs (t :: ts))
                  = noDoubleSep ('/' :: joinSegs (t :: ts)) :=
                noDoubleSep_sepFree_append (c :: cs) _ hs.2
              calc noDoubleSep ('/' :: ((c :: cs) ++ '/' :: joinSegs (t :: ts)))
                  = noDoubleSep ((c :: cs) ++ '/' :: joinSegs (t :: ts)) := h1
                _ = noDoubleSep ('/' :: joinSegs (t :: ts)) := h2
                _ = true := ih hgood

theorem data_append (a b : String) : (a ++ b).data = a.data ++ b.data := by
  cases a
  cases b
  rfl

theorem toSFTPPath_data (s : String) : (toSFTPPath s).data = '/' :: normL s.data := by
  show (("/" : String) ++ normalizePath s).data = '/' :: normL s.data
  rw [data_append]
  rfl

theorem slash_data : ("/" : String).data = ['/'] := rfl

theorem string_ext {a b : String} (h : a.data = b.data) : a = b := by
  cases a
  cases b
  exact congrArg String.mk h

theorem normL_slash_cons (cs : List Char) : normL ('/' :: cs) = normL cs := by
  rw [normL, segsL_slash_cons, normL]

theorem normL_normL (cs : List Char) : normL (normL cs) = normL cs := by
  rw [normL, segsL_normL, normL]

theorem toSFTPPath_idem (x : String) : toSFTPPath (toSFTPPath x) = toSFTPPath x := by
  apply string_ext
  rw [toSFTPPath_data, toSFTPPath_data, normL_slash_cons, normL_normL]

/-- C3.  `toSFTPPath` always returns a path that starts with exactly one `/`
(first character is `/`, second — if any — is not), contains no doubled
separators, and is idempotent. -/
theorem toSFTPPath_wellFormed (x : String) :
    (toSFTPPath x).data.head? = some '/' ∧
    (toSFTPPath x).data.tail.head? ≠ some '/' ∧
    noDoubleSep (toSFTPPath x).data = true ∧
    toSFTPPath (toSFTPPath x) = toSFTPPath x := by
  refine ⟨?_, ?_, ?_, toSFTPPath_idem x⟩
  · rw [toSFTPPath_data]
    rfl
  · rw [toSFTPPath_data]
    have h := headNotSep_joinSegs (segsL x.data) (segsL_good x.data)
    simp only [List.tail_cons, normL]
    cases hj : joinSegs (segsL x.data) with
    | nil => simp
    | cons c r =>
        rw [hj] at h
        simp only [headNotSep] at h
        intro hcontra
        simp at hcontra
        rw [hcontra] at h
        simp [isSep] at h
  · rw [toSFTPPath_data, normL]
    exact noDoubleSep_slash_joinSegs (segsL x.data) (segsL_good x.data)

theorem data_append3 (a b c : String) :
    (a ++ b ++ c).data = a.data ++ b.data ++ c.data := by
  rw [data_append, data_append]

/-- Normalizing the final component before concatenation does not change the
resulting remote path: the in-model counterpart of the fact that
`downloadFile` re-normalizes its argument through `toSFTPPath` anyway. -/
theorem toSFTPPath_append_norm (a b : String) :
    toSFTPPath (a ++ "/" ++ normalizePath b) = toSFTPPath (a ++ "/" ++ b) := by
  apply string_ext
  rw [toSFTPPath_data, toSFTPPath_data]
  have h1 : (a ++ "/" ++ normalizePath b).data = a.data ++ '/' :: normL b.data := by
    rw [data_append3, slash_data]
    simp [normalizePath]
  have h2 : (a ++ "/" ++ b).data = a.data ++ '/' :: b.data := by
    rw [data_append3, slash_data]
    simp
  rw [h1, h2]
  show '/' :: joinSegs (segsL (a.data ++ '/' :: normL b.data))
      = '/' :: joinSegs (segsL (a.data ++ '/' :: b.data))
  rw [segsL_append_sep (by simp [isSep]), segsL_append_sep (by simp [isSep]), segsL_normL]

/-! ### File modes and the permission resolver -/

/-- A JavaScript number as produced by `parseInt`: either an integer or `NaN`. -/
inductive JSNumber
  | nan
  | int (n : Int)
deriving DecidableEq, Repr

/-- `SFTPFileMode` from the source: `number | string`. -/
inductive SFTPFileMode
  | num (n : Int)
  | str (s : String)
deriving DecidableEq, Repr

/-- `SFTPFileModeSettings` from the source: a single mode value or a map
from glob pattern to mode value (insertion-ordered, hence a list). -/
inductive SFTPFileModeSettings
  | mode (m : SFTPFileMode)
  | patterns (ps : List (String × SFTPFileMode))
deriving DecidableEq, Repr

/-- Modelled from the spec: `deploy_helpers.toStringSafe` on a mode value —
a number renders as its decimal string, a string is returned as-is. -/
def toStringSafe : SFTPFileMode → String
  | .num n => toString n
  | .str s => s

/-- JavaScript `String.prototype.trim()`: strip leading and trailing
whitespace. -/
def trimStr (s : String) : String :=
  ⟨((s.data.dropWhile Char.isWhitespace).reverse.dropWhile Char.isWhitespace).reverse⟩

/-- JavaScript `String.prototype.toLowerCase()` (ASCII case folding). -/
def toLowerStr (s : String) : String :=
  ⟨s.data.map Char.toLower⟩

/-- An octal digit test. -/
def isOctDigit (c : Char) : Bool := '0' ≤ c && c ≤ '7'

/-- Modelled from the spec: JavaScript `parseInt(s, 8)` — skip leading
whitespace, optional sign, then the maximal octal-digit run; `NaN` when
no digit is found. -/
def parseIntOct (s : String) : JSNumber :=
  let cs := s.data.dropWhile (fun c => c.isWhitespace)
  let signAndRest : Int × List Char :=
    match cs with
    | '-' :: r => (-1, r)
    | '+' :: r => (1, r)
    | _ => (1, cs)
  let ds := (signAndRest.2.takeWhile isOctDigit).map (fun c => (c.toNat - 48 : Nat))
  if ds.isEmpty then .nan
  else .int (signAndRest.1 * (ds.foldl (fun a d => a * 8 + d) 0 : Nat))

/-- Match one glob segment (pattern characters) against one path segment,
case-insensitively; `*` matches any run of characters, `?` any single
character.  Modelled from the spec: the pattern-matcher collaborator
(`minimatch` via `deploy_helpers.doesMatch`) with options
`dot: true, nocase: true`. -/
def matchSegFuel : Nat → List Char → List Char → Bool
  | 0, _, _ => false
  | _ + 1, [], [] => true
  | _ + 1, [], _ :: _ => false
  | f + 1, '*' :: ps, ns =>
      matchSegFuel f ps ns ||
        (match ns with
         | [] => false
         | _ :: ns2 => matchSegFuel f ('*' :: ps) ns2)
  | f + 1, '?' :: ps, _ :: ns => matchSegFuel f ps ns
  | _ + 1, '?' :: _, [] => false
  | f + 1, p :: ps, n :: ns => (p.toLower == n.toLower) && matchSegFuel f ps ns
  | _ + 1, _ :: _, [] => false

/-- Match one glob segment against one path segment.  The fuel argument of
`matchSegFuel` is a termination device only: every recursive call shrinks
`pattern.length + name.length`, so the initial fuel below is never
exhausted. -/
def matchSeg (p n : List Char) : Bool :=
  matchSegFuel (p.length + n.length + 1) p n

def matchSegsFuel : Nat → List (List Char) → List (List Char) → Bool
  | 0, _, _ => false
  | _ + 1, [], [] => true
  | _ + 1, [], _ :: _ => false
  | f + 1, p :: ps, ns =>
      if p = ['*', '*'] then
        matchSegsFuel f ps ns ||
          (match ns with
           | [] => false
           | _ :: ns2 => matchSegsFuel f (p :: ps) ns2)
      else
        match ns with
        | [] => false
        | n :: ns2 => matchSeg p n && matchSegsFuel f ps ns2

/-- Match a glob segment list against a path segment list; a `**` segment
(globstar) matches any number of path segments, including none.  Fuel as in
`matchSeg`. -/
def matchSegs (ps ns : List (List Char)) : Bool :=
  matchSegsFuel (ps.length + ns.length + 1) ps ns

/-- Modelled from the spec: `deploy_helpers.doesMatch(path, pattern, opts)`
with `opts = ⟨dot: true, nocase: true⟩` — glob matching of the path against
the pattern, case-insensitive, dotfiles included; both sides are compared
segment-wise with empty segments dropped (so separators collapse). -/
def doesMatch (s pattern : String) : Bool :=
  matchSegs (segsL pattern.data) (segsL s.data)

/-- Whether a string starts with the character `/`. -/
def startsWithSlash (P : String) : Bool :=
  match P.data with
  | '/' :: _ => true
  | _ => false

/-- The source roots a pattern that lacks a leading `/`:
`if (!pattern.startsWith('/')) pattern = '/' + pattern`. -/
def rootPattern (P : String) : String :=
  if startsWithSlash P then P else "/" ++ P

/-- The mode-resolution loop of `uploadFile` (`for (const P in fileModes)`):
first pattern (in declaration order) whose rooted form glob-matches the
remote path wins; its value is `toStringSafe`-converted, trimmed and parsed
as octal.  Returns the matched raw pattern together with the parsed mode. -/
def resolveMode : List (String × SFTPFileMode) → String → Option (String × JSNumber)
  | [], _ => none
  | (P, v) :: rest, path =>
      if doesMatch path (rootPattern P)
      then some (P, parseIntOct (trimStr (toStringSafe v)))
      else resolveMode rest path

/-- C2.  The permission resolver walks the pattern map in declaration
order; the first pattern whose rooted form glob-matches the remote path
wins and its value — trimmed — is parsed as octal; this is exactly a
first-match search over the ordered pattern list.  In particular, for
patterns `**/*.sh ↦ "755", **/* ↦ "644"` and path `/a/b.sh` the resolved
mode is `0o755`. -/
theorem resolveMode_firstMatchWins :
    (∀ (ms : List (String × SFTPFileMode)) (path : String),
        resolveMode ms path =
          (ms.find? (fun pv => doesMatch path (rootPattern pv.1))).map
            (fun pv => (pv.1, parseIntOct (trimStr (toStringSafe pv.2))))) ∧
    resolveMode [("**/*.sh", .str "755"), ("**/*", .str "644")] "/a/b.sh"
      = some ("**/*.sh", .int 0o755) := by
  constructor
  · intro ms path
    induction ms with
    | nil => rfl
    | cons pv rest ih =>
        obtain ⟨P, v⟩ := pv
        by_cases h : doesMatch path (rootPattern P)
        · rw [resolveMode, if_pos h, List.find?_cons_of_pos _ (by simpa using h)]
          rfl
        · rw [resolveMode, if_neg h,
            List.find?_cons_of_neg _ (by simpa using h), ih]
  · decide

/-! ### The upload path: session state, transport outcomes, event trace -/

/-- Connection options, restricted to the fields the verified claims
depend on (`modes` for uploads, `hashes` for host verification; the
remaining fields of `SFTPConnectionOptions` never influence the claims
below and are omitted). -/
structure SFTPConnectionOptions where
  host : Option String
  hashes : List String
  modes : Option SFTPFileModeSettings
deriving DecidableEq, Repr

/-- Per-session cache of remote directories already confirmed to exist
(`_checkedRemoteDirs`). -/
structure SessionState where
  checkedRemoteDirs : List String
deriving DecidableEq, Repr

/-- Outcomes of the remote transport operations used by `uploadFile`:
`none` = the operation succeeds, `some e` = it throws `e`. -/
structure Transport where
  listDir : String → Option String
  mkdir : String → Option String
  put : String → Option String
  chmod : String → JSNumber → Option String

/-- Observable actions of one `uploadFile` run (transport calls and log
writes, in order). -/
inductive UploadEvent
  | listDirEv (dir : String)
  | mkdirEv (dir : String)
  | noticeNoMatch (path : String)
  | noticeMatch (path pattern : String)
  | putEv (path : String)
  | infoSetMode (path : String) (mode : JSNumber)
  | chmodEv (path : String) (mode : JSNumber)
  | traceChmodErr (err : String)
deriving DecidableEq, Repr

/-- Modelled from the spec: Node's `path.dirname` (POSIX) — an external
collaborator of the source (`Path.dirname(path)`); the spec says the
parent directory is computed from the path.  Faithful to the documented
POSIX `dirname` behaviour. -/
def dirname (p : String) : String :=
  match p.data with
  | [] => "."
  | c0 :: rest =>
      let cs := c0 :: rest
      let hasRoot := c0 = '/'
      let rev1 := cs.reverse.dropWhile (fun c => c = '/')
      let rev2 := rev1.dropWhile (fun c => c ≠ '/')
      if rev2.length ≤ 1 then (if hasRoot then "/" else ".")
      else if hasRoot ∧ rev2.length = 2 then "//"
      else ⟨cs.take (rev2.length - 1)⟩

/-- The `fileModes` value computed by `uploadFile`: an absent mode spec
yields no pattern table; a bare value is wrapped as `{'**/*': value}`;
a pattern map is used as-is. -/
def fileModesOf : Option SFTPFileModeSettings → Option (List (String × SFTPFileMode))
  | none => none
  | some (.mode m) => some [("**/*", m)]
  | some (.patterns ps) => some ps

/-- The `modeToSet` value computed by `uploadFile` for a remote path:
the parsed mode of the first matching pattern, or `none` when no spec is
configured or no pattern matches. -/
def modeToSetOf (modes : Option SFTPFileModeSettings) (path : String) : Option JSNumber :=
  match fileModesOf modes with
  | none => none
  | some ps =>
      match resolveMode ps path with
      | some pm => some pm.2
      | none => none

/-- The log notices emitted by the mode-resolution step. -/
def modeNoticeEvents (modes : Option SFTPFileModeSettings) (path : String) : List UploadEvent :=
  match fileModesOf modes with
  | none => []
  | some ps =>
      match resolveMode ps path with
      | some pm => [.noticeMatch path pm.1]
      | none => [.noticeNoMatch path]

/-- The remote-directory ensure-exists step of `uploadFile`
(`if (true !== this._checkedRemoteDirs[REMOTE_DIR]) { try list catch mkdir; mark }`):
on a cache hit nothing happens; otherwise the directory is listed, on a
listing failure recursively created, and marked in the cache only when
one of the two succeeded — a creation failure propagates and leaves the
cache unchanged. -/
def ensureDir (t : Transport) (st : SessionState) (dir : String) :
    Option String × SessionState × List UploadEvent :=
  if st.checkedRemoteDirs.contains dir then (none, st, [])
  else
    match t.listDir dir with
    | none => (none, ⟨dir :: st.checkedRemoteDirs⟩, [.listDirEv dir])
    | some _ =>
        match t.mkdir dir with
        | none =>
            (none, ⟨dir :: st.checkedRemoteDirs⟩,
              [.listDirEv dir, .mkdirEv dir])
        | some e => (some e, st, [.listDirEv dir, .mkdirEv dir])

/-- `SFTPClient.uploadFile` from `src/clients/sftp.ts`, embedded with
explicit session state and an event trace.  Result `none` models the
promise resolving, `some e` the promise rejecting with `e` (the
`COMPLETED` completion path of the source propagates a non-null error as
a rejection — modelled from the spec, section 7: all asynchronous
operations propagate failures through a single completion path).  Steps,
in source order: compute `REMOTE_DIR` and the normalized path; ensure
the remote directory exists; resolve `modeToSet` (logging the match
notice); `put` the data; if a mode was resolved, `chmod` — logging a
chmod error and completing with it. -/
def uploadFile (t : Transport) (st : SessionState) (modes : Option SFTPFileModeSettings)
    (path0 : String) : Option String × SessionState × List UploadEvent :=
  let REMOTE_DIR := toSFTPPath (dirname path0)
  let path := toSFTPPath path0
  match ensureDir t st REMOTE_DIR with
  | (some e, st1, evs) => (some e, st1, evs)
  | (none, st1, evs) =>
      let evs1 := evs ++ modeNoticeEvents modes path
      match t.put path with
      | some e => (some e, st1, evs1 ++ [.putEv path])
      | none =>
          match modeToSetOf modes path with
          | some m =>
              match t.chmod path m with
              | some err =>
                  (some err, st1,
                    evs1 ++ [.putEv path, .infoSetMode path m, .chmodEv path m,
                      .traceChmodErr err])
              | none =>
                  (none, st1, evs1 ++ [.putEv path, .infoSetMode path m, .chmodEv path m])
          | none => (none, st1, evs1 ++ [.putEv path])

/-- A transport on which every operation succeeds. -/
def allOkTransport : Transport :=
  ⟨fun _ => none, fun _ => none, fun _ => none, fun _ _ => none⟩

/-- A transport on which everything succeeds except `chmod`, which fails
with the error string `chmod-failed`. -/
def chmodFailTransport : Transport :=
  ⟨fun _ => none, fun _ => none, fun _ => none, fun _ _ => some "chmod-failed"⟩

/-- Whether an upload event is a directory-existence check or a directory
creation. -/
def isDirCheckEvent : UploadEvent → Bool
  | .listDirEv _ => true
  | .mkdirEv _ => true
  | _ => false

theorem uploadFile_state (t : Transport) (st : SessionState)
    (modes : Option SFTPFileModeSettings) (path0 : String) :
    (uploadFile t st modes path0).2.1
      = (ensureDir t st (toSFTPPath (dirname path0))).2.1 := by
  rcases hE : ensureDir t st (toSFTPPath (dirname path0)) with ⟨r, st1, evs⟩
  cases r with
  | some e => simp [uploadFile, hE]
  | none =>
      simp only [uploadFile, hE]
      cases hp : t.put (toSFTPPath path0) with
      | some e => simp
      | none =>
          cases hm : modeToSetOf modes (toSFTPPath path0) with
          | none => simp
          | some m =>
              cases hch : t.chmod (toSFTPPath path0) m with
              | some e => simp [hch]
              | none => simp [hch]

theorem ensureDir_mem_cache (t : Transport) (st : SessionState) (dir d : String)
    (hd : d ∈ (ensureDir t st dir).2.1.checkedRemoteDirs) :
    d ∈ st.checkedRemoteDirs ∨
      (d = dir ∧ (t.listDir dir = none ∨ t.mkdir dir = none)) := by
  unfold ensureDir at hd
  by_cases hc : st.checkedRemoteDirs.contains dir
  · rw [if_pos hc] at hd
    exact Or.inl hd
  · rw [if_neg hc] at hd
    cases hl : t.listDir dir with
    | none =>
        rw [hl] at hd
        simp at hd
        rcases hd with hd | hd
        · exact Or.inr ⟨hd, Or.inl rfl⟩
        · exact Or.inl hd
    | some e =>
        rw [hl] at hd
        cases hm : t.mkdir dir with
        | none =>
            rw [hm] at hd
            simp at hd
            rcases hd with hd | hd
            · exact Or.inr ⟨hd, Or.inr rfl⟩
            · exact Or.inl hd
        | some e2 =>
            rw [hm] at hd
            exact Or.inl hd

theorem modeNoticeEvents_not_dirCheck (modes : Option SFTPFileModeSettings)
    (path : String) :
    (modeNoticeEvents modes path).all (fun ev => !isDirCheckEvent ev) = true := by
  unfold modeNoticeEvents
  cases fileModesOf modes with
  | none => rfl
  | some ps =>
      simp only
      cases resolveMode ps path with
      | none => rfl
      | some pm => rfl

theorem all_append_not_dirCheck (modes : Option SFTPFileModeSettings)
    (path : String) (tl : List UploadEvent)
    (htl : tl.all (fun ev => !isDirCheckEvent ev) = true) :
    ((modeNoticeEvents modes path ++ tl).all (fun ev => !isDirCheckEvent ev)) = true := by
  rw [List.all_append, modeNoticeEvents_not_dirCheck, htl]
  rfl

theorem uploadFile_cacheHit_no_dirCheck (t : Transport) (st : SessionState)
    (modes : Option SFTPFileModeSettings) (path0 : String)
    (hc : st.checkedRemoteDirs.contains (toSFTPPath (dirname path0)) = true) :
    ((uploadFile t st modes path0).2.2.all (fun ev => !isDirCheckEvent ev)) = true := by
  have hE : ensureDir t st (toSFTPPath (dirname path0)) = (none, st, []) := by
    unfold ensureDir
    rw [if_pos hc]
  simp only [uploadFile, hE]
  cases hp : t.put (toSFTPPath path0) with
  | some e =>
      simp only [List.nil_append]
      exact all_append_not_dirCheck modes (toSFTPPath path0) _ rfl
  | none =>
      cases hm : modeToSetOf modes (toSFTPPath path0) with
      | none =>
          simp only [List.nil_append]
          exact all_append_not_dirCheck modes (toSFTPPath path0) _ rfl
      | some m =>
          cases hch : t.chmod (toSFTPPath path0) m with
          | some e =>
              simp only [hch, List.nil_append]
              exact all_append_not_dirCheck modes (toSFTPPath path0) _ rfl
          | none =>
              simp only [hch, List.nil_append]
              exact all_append_not_dirCheck modes (toSFTPPath path0) _ rfl

theorem ensureDir_marks (t : Transport) (st : SessionState) (dir : String)
    (hl : t.listDir dir = none) :
    (ensureDir t st dir).2.1.checkedRemoteDirs.contains dir = true := by
  unfold ensureDir
  by_cases hc : st.checkedRemoteDirs.contains dir
  · rw [if_pos hc]
    exact hc
  · rw [if_neg hc, hl]
    simp

/-- C7.  (a) A directory is present in the post-upload cache only if it was
already cached or it is the upload's parent directory and its listing or
its recursive creation succeeded; (b) when the parent directory is already
cached, the upload performs no directory-existence check and no directory
creation; (c) hence after an upload whose parent-directory listing
succeeded, a second upload to any path under the same parent performs no
directory-existence check or creation. -/
theorem uploadFile_dirCache_spec :
    (∀ (t : Transport) (st : SessionState) (modes : Option SFTPFileModeSettings)
        (path0 d : String),
        d ∈ (uploadFile t st modes path0).2.1.checkedRemoteDirs →
        d ∈ st.checkedRemoteDirs ∨
          (d = toSFTPPath (dirname path0) ∧
            (t.listDir (toSFTPPath (dirname path0)) = none ∨
              t.mkdir (toSFTPPath (dirname path0)) = none))) ∧
    (∀ (t : Transport) (st : SessionState) (modes : Option SFTPFileModeSettings)
        (path0 : String),
        st.checkedRemoteDirs.contains (toSFTPPath (dirname path0)) = true →
        ((uploadFile t st modes path0).2.2.all (fun ev => !isDirCheckEvent ev)) = true) ∧
    (∀ (t t2 : Transport) (modes modes2 : Option SFTPFileModeSettings)
        (st : SessionState) (p1 p2 : String),
        t.listDir (toSFTPPath (dirname p1)) = none →
        toSFTPPath (dirname p2) = toSFTPPath (dirname p1) →
        ((uploadFile t2 (uploadFile t st modes p1).2.1 modes2 p2).2.2.all
          (fun ev => !isDirCheckEvent ev)) = true) := by
  refine ⟨?_, ?_, ?_⟩
  · intro t st modes path0 d hd
    rw [uploadFile_state] at hd
    exact ensureDir_mem_cache t st (toSFTPPath (dirname path0)) d hd
  · intro t st modes path0 hc
    exact uploadFile_cacheHit_no_dirCheck t st modes path0 hc
  · intro t t2 modes modes2 st p1 p2 hl hp
    apply uploadFile_cacheHit_no_dirCheck
    rw [hp, uploadFile_state]
    exact ensureDir_marks t st (toSFTPPath (dirname p1)) hl

/-- Witness for C7 at concrete inputs: parent `/a` of `/a/b.txt`; a second
upload to the sibling `/a/c.txt` issues no directory check. -/
theorem uploadFile_dirCache_spec_witness :
    ("/a" ∈ (SessionState.mk []).checkedRemoteDirs ∨
      ("/a" = toSFTPPath (dirname "/a/b.txt") ∧
        (allOkTransport.listDir (toSFTPPath (dirname "/a/b.txt")) = none ∨
          allOkTransport.mkdir (toSFTPPath (dirname "/a/b.txt")) = none))) ∧
    ((uploadFile allOkTransport ⟨["/a"]⟩ none "/a/c.txt").2.2.all
      (fun ev => !isDirCheckEvent ev)) = true ∧
    ((uploadFile allOkTransport
        (uploadFile allOkTransport ⟨[]⟩ none "/a/b.txt").2.1 none "/a/c.txt").2.2.all
      (fun ev => !isDirCheckEvent ev)) = true :=
  ⟨uploadFile_dirCache_spec.1 allOkTransport ⟨[]⟩ none "/a/b.txt" "/a" (by decide),
   uploadFile_dirCache_spec.2.1 allOkTransport ⟨["/a"]⟩ none "/a/c.txt" (by decide),
   uploadFile_dirCache_spec.2.2 allOkTransport allOkTransport none none ⟨[]⟩
     "/a/b.txt" "/a/c.txt" (by decide) (by decide)⟩

/-- C1 as stated is false on the code, at a concrete input: with the mode
spec `"644"` (so a permission value is resolved), a transport whose write
succeeds and whose `chmod` fails, `uploadFile` does not complete
successfully — the chmod error is logged and then handed to the
completion path, which rejects with it. -/
theorem uploadFile_chmodFailure_counterexample :
    (modeToSetOf (some (.mode (.str "644"))) (toSFTPPath "/a/b.txt")).isSome = true ∧
    chmodFailTransport.put (toSFTPPath "/a/b.txt") = none ∧
    UploadEvent.traceChmodErr "chmod-failed"
      ∈ (uploadFile chmodFailTransport ⟨[]⟩ (some (.mode (.str "644"))) "/a/b.txt").2.2 ∧
    ¬ (uploadFile chmodFailTransport ⟨[]⟩ (some (.mode (.str "644"))) "/a/b.txt").1 = none := by
  refine ⟨by decide, rfl, by decide, by decide⟩

/-- C1 amended: when a permission value was resolved and the remote write
succeeded, a failure of the chmod step is logged *and propagated* — the
chmod error is passed to the completion callback, so `uploadFile` fails
with that error instead of completing successfully. -/
theorem uploadFile_chmodFailure_propagates
    (t : Transport) (st : SessionState) (modes : Option SFTPFileModeSettings)
    (path0 : String) (m : JSNumber) (err : String)
    (hens : (ensureDir t st (toSFTPPath (dirname path0))).1 = none)
    (hmode : modeToSetOf modes (toSFTPPath path0) = some m)
    (hput : t.put (toSFTPPath path0) = none)
    (hchmod : t.chmod (toSFTPPath path0) m = some err) :
    (uploadFile t st modes path0).1 = some err ∧
    UploadEvent.traceChmodErr err ∈ (uploadFile t st modes path0).2.2 := by
  rcases hE : ensureDir t st (toSFTPPath (dirname path0)) with ⟨r, st1, evs⟩
  rw [hE] at hens
  simp only at hens
  subst hens
  simp only [uploadFile, hE, hput, hmode, hchmod]
  simp [List.mem_append]

/-- Witness for the amended C1 at concrete inputs. -/
theorem uploadFile_chmodFailure_propagates_witness :
    (uploadFile chmodFailTransport ⟨["/a"]⟩ (some (.mode (.str "644"))) "/a/b.txt").1
        = some "chmod-failed" ∧
    UploadEvent.traceChmodErr "chmod-failed"
      ∈ (uploadFile chmodFailTransport ⟨["/a"]⟩ (some (.mode (.str "644"))) "/a/b.txt").2.2 :=
  uploadFile_chmodFailure_propagates chmodFailTransport ⟨["/a"]⟩
    (some (.mode (.str "644"))) "/a/b.txt" (.int 420) "chmod-failed"
    (by decide) (by decide) (by decide) (by decide)

/-- C9.  When the first matching pattern's value does not parse as octal,
the resolved mode is `NaN`; since `NaN` is distinct from the no-match
sentinel, the chmod step is still attempted with that `NaN` value. -/
theorem resolveMode_nan_chmod_attempted :
    (∀ (P : String) (v : SFTPFileMode) (rest : List (String × SFTPFileMode)) (path : String),
        doesMatch path (rootPattern P) = true →
        parseIntOct (trimStr (toStringSafe v)) = .nan →
        resolveMode ((P, v) :: rest) path = some (P, .nan)) ∧
    (∀ (t : Transport) (st : SessionState) (modes : Option SFTPFileModeSettings)
        (path0 : String),
        modeToSetOf modes (toSFTPPath path0) = some .nan →
        (ensureDir t st (toSFTPPath (dirname path0))).1 = none →
        t.put (toSFTPPath path0) = none →
        UploadEvent.chmodEv (toSFTPPath path0) .nan
          ∈ (uploadFile t st modes path0).2.2) := by
  constructor
  · intro P v rest path hmatch hparse
    simp [resolveMode, hmatch, hparse]
  · intro t st modes path0 hmode hens hput
    rcases hE : ensureDir t st (toSFTPPath (dirname path0)) with ⟨r, st1, evs⟩
    rw [hE] at hens
    simp only at hens
    subst hens
    simp only [uploadFile, hE, hput, hmode]
    cases hch : t.chmod (toSFTPPath path0) .nan with
    | some e => simp [hch, List.mem_append]
    | none => simp [hch, List.mem_append]

/-- Witness for C9 at concrete inputs: pattern value `"foo"` parses to
`NaN` and the chmod call is still attempted with it. -/
theorem resolveMode_nan_chmod_attempted_witness :
    resolveMode [("**/*", .str "foo")] "/a/b" = some ("**/*", .nan) ∧
    UploadEvent.chmodEv (toSFTPPath "/a/b") .nan
      ∈ (uploadFile allOkTransport ⟨["/a"]⟩
          (some (.patterns [("**/*", .str "foo")])) "/a/b").2.2 :=
  ⟨resolveMode_nan_chmod_attempted.1 "**/*" (.str "foo") [] "/a/b" (by decide) (by decide),
   resolveMode_nan_chmod_attempted.2 allOkTransport ⟨["/a"]⟩
     (some (.patterns [("**/*", .str "foo")])) "/a/b" (by decide) (by decide) (by decide)⟩

/-! ### Directory listing -/

/-- A raw remote directory entry as reported by the transport
(`ssh2-sftp-client`'s `list`): name, one-character type code, size and
modification time. -/
structure RawEntry where
  name : String
  type : Char
  size : Nat
  modifyTime : Nat
deriving DecidableEq, Repr

/-- The download capability closed over by a `File` listing entry: it
captures the listing client's original options (`ME.options`) and the
argument string passed to `downloadFile`
(`normalizePath(path) + '/' + normalizePath(FI.name)`). -/
structure DownloadCap where
  opts : SFTPConnectionOptions
  arg : String
deriving DecidableEq, Repr

/-- `deploy_files.FileSystemInfo` as produced by `listDirectory`: a
`Directory`, a `File` (with its download capability), or an unclassified
entry with the base fields only. -/
inductive FSEntry
  | directory (name path : String) (size time : Nat)
  | file (name path : String) (size time : Nat) (cap : DownloadCap)
  | other (name path : String) (size time : Nat)
deriving DecidableEq, Repr

/-- `SFTPClient.listDirectory` from `src/clients/sftp.ts`: normalize the
path, and classify each raw entry by its type code — `'d'` to a
Directory, `'-'` to a File carrying a download capability, anything else
to an unclassified entry. -/
def listDirectory (opts : SFTPConnectionOptions) (path0 : String)
    (list : List RawEntry) : List FSEntry :=
  let path := toSFTPPath path0
  list.map fun FI =>
    if FI.type = 'd' then
      .directory FI.name (normalizePath path) FI.size FI.modifyTime
    else if FI.type = '-' then
      .file FI.name (normalizePath path) FI.size FI.modifyTime
        ⟨opts, normalizePath path ++ "/" ++ normalizePath FI.name⟩
    else
      .other FI.name (normalizePath path) FI.size FI.modifyTime

/-- The three possible shapes of a listing entry. -/
inductive EntryShape
  | dir
  | file
  | other
deriving DecidableEq, Repr

/-- The shape of a produced entry. -/
def shapeOf : FSEntry → EntryShape
  | .directory .. => .dir
  | .file .. => .file
  | .other .. => .other

/-- Whether an entry carries a download capability. -/
def hasDownloadCap : FSEntry → Bool
  | .file .. => true
  | _ => false

/-- C8.  `listDirectory` produces exactly one entry per raw entry, whose
shape is decided solely by the raw type code (`'d'` ↦ Directory, `'-'` ↦
File, anything else ↦ unclassified); exactly the File shape carries a
download capability. -/
theorem listDirectory_classification :
    (∀ (opts : SFTPConnectionOptions) (path0 : String) (l : List RawEntry),
        (listDirectory opts path0 l).map shapeOf =
          l.map (fun FI =>
            if FI.type = 'd' then EntryShape.dir
            else if FI.type = '-' then EntryShape.file
            else EntryShape.other)) ∧
    (∀ e : FSEntry, hasDownloadCap e = true ↔ shapeOf e = .file) := by
  constructor
  · intro opts path0 l
    induction l with
    | nil => rfl
    | cons FI rest ih =>
        simp only [listDirectory, List.map_cons] at ih ⊢
        rw [ih]
        by_cases h1 : FI.type = 'd'
        · simp [h1, shapeOf]
        · by_cases h2 : FI.type = '-'
          · simp [h1, h2, shapeOf]
          · simp [h1, h2, shapeOf]
  · intro e
    cases e <;> simp [hasDownloadCap, shapeOf]

/-! ### The per-entry download capability -/

/-- Outcomes of the collaborators used by a capability invocation:
whether `openConnection` rejects, the result of `downloadFile` per
effective remote path, and whether `client.end()` rejects. -/
structure DlWorld where
  openErr : Option String
  fetch : String → Except String (List Nat)
  closeErr : Option String

/-- Observable actions of one capability invocation. -/
inductive DlEvent
  | openedWith (opts : SFTPConnectionOptions)
  | fetched (remotePath : String)
  | closeAttempted
  | closeErrLogged (e : String)
deriving DecidableEq, Repr

/-- The body of the `download` closure built by `listDirectory`:
`openConnection(ME.options)`, then `try downloadFile(arg) finally
try end() catch log` — the downloaded result (or its failure) is
returned unchanged; a close failure is only logged.  `downloadFile`
normalizes its argument, so the effective remote path is
`toSFTPPath cap.arg`. -/
def runDownload (cap : DownloadCap) (w : DlWorld) :
    Except String (List Nat) × List DlEvent :=
  match w.openErr with
  | some e => (.error e, [])
  | none =>
      let dl := w.fetch (toSFTPPath cap.arg)
      let closeEvs :=
        match w.closeErr with
        | none => [DlEvent.closeAttempted]
        | some e => [DlEvent.closeAttempted, DlEvent.closeErrLogged e]
      (dl, [DlEvent.openedWith cap.opts, DlEvent.fetched (toSFTPPath cap.arg)] ++ closeEvs)

/-- C6.  Every `File` entry produced by `listDirectory` carries a download
capability that uses the original connection options, downloads the file
at `parentPath + '/' + name`, always attempts to close its temporary
session (logging close failures without changing the result), and
propagates a download failure to the caller. -/
theorem listDirectory_download_capability
    (opts : SFTPConnectionOptions) (path0 : String) (l : List RawEntry)
    (name pth : String) (sz tm : Nat) (cap : DownloadCap)
    (hmem : FSEntry.file name pth sz tm cap ∈ listDirectory opts path0 l) :
    cap.opts = opts ∧
    ∀ w : DlWorld, w.openErr = none →
      (runDownload cap w).1 = w.fetch (toSFTPPath (pth ++ "/" ++ name)) ∧
      DlEvent.openedWith opts ∈ (runDownload cap w).2 ∧
      DlEvent.closeAttempted ∈ (runDownload cap w).2 ∧
      (∀ e, w.closeErr = some e →
        DlEvent.closeErrLogged e ∈ (runDownload cap w).2) ∧
      (∀ err, w.fetch (toSFTPPath (pth ++ "/" ++ name)) = .error err →
        (runDownload cap w).1 = .error err) := by
  simp only [listDirectory, List.mem_map] at hmem
  obtain ⟨FI, hFI, hf⟩ := hmem
  by_cases h1 : FI.type = 'd'
  · rw [if_pos h1] at hf
    exact absurd hf (by simp)
  · rw [if_neg h1] at hf
    by_cases h2 : FI.type = '-'
    · rw [if_pos h2] at hf
      simp only [FSEntry.file.injEq] at hf
      obtain ⟨hn, hp, hs, ht, hcap⟩ := hf
      subst hn
      subst hp
      subst hcap
      refine ⟨rfl, ?_⟩
      intro w hopen
      have harg : toSFTPPath (normalizePath (toSFTPPath path0) ++ "/" ++ normalizePath FI.name)
          = toSFTPPath (normalizePath (toSFTPPath path0) ++ "/" ++ FI.name) :=
        toSFTPPath_append_norm (normalizePath (toSFTPPath path0)) FI.name
      simp only [runDownload, hopen]
      cases hcl : w.closeErr with
      | none =>
          refine ⟨by rw [harg], by simp, by simp, ?_, ?_⟩
          · intro e he
            exact absurd he (by simp)
          · intro err herr
            rw [harg]
            exact herr
      | some e0 =>
          refine ⟨by rw [harg], by simp, by simp, ?_, ?_⟩
          · intro e he
            simp at he
            subst he
            simp
          · intro err herr
            rw [harg]
            exact herr
    · rw [if_neg h2] at hf
      exact absurd hf (by simp)

/-- Sample connection options used by the C6 witness. -/
def sampleOpts : SFTPConnectionOptions := ⟨none, [], none⟩

/-- The download capability of the sample `File` entry below. -/
def sampleCap : DownloadCap := ⟨sampleOpts, "a/b.txt"⟩

/-- A collaborator world whose download fails with the requested path and
whose session close fails. -/
def sampleDlWorld : DlWorld := ⟨none, fun p => .error p, some "close-failed"⟩

/-- Witness for C6 at concrete inputs: the capability of the listed file
`/a/b.txt` opens with the original options, fetches at `/a/b.txt`,
attempts and logs the failing close, and propagates the download
failure. -/
theorem listDirectory_download_capability_witness :
    sampleCap.opts = sampleOpts ∧
    (runDownload sampleCap sampleDlWorld).1
        = sampleDlWorld.fetch (toSFTPPath ("a" ++ "/" ++ "b.txt")) ∧
    DlEvent.openedWith sampleOpts ∈ (runDownload sampleCap sampleDlWorld).2 ∧
    DlEvent.closeAttempted ∈ (runDownload sampleCap sampleDlWorld).2 ∧
    DlEvent.closeErrLogged "close-failed" ∈ (runDownload sampleCap sampleDlWorld).2 ∧
    (runDownload sampleCap sampleDlWorld).1 = .error "/a/b.txt" := by
  have h := listDirectory_download_capability sampleOpts "/a"
      [⟨"b.txt", '-', 3, 5⟩] "b.txt" "a" 3 5 sampleCap (by decide)
  obtain ⟨h1, h2⟩ := h
  have h3 := h2 sampleDlWorld rfl
  exact ⟨h1, h3.1, h3.2.1, h3.2.2.1, h3.2.2.2.1 "close-failed" rfl,
    h3.2.2.2.2 "/a/b.txt" (by rfl)⟩

/-! ### Download staging through a temporary file -/

/-- The local temporary-file area: a fresh-name counter and the live
files with their contents. -/
structure TempFS where
  next : Nat
  files : List (Nat × List Nat)
deriving DecidableEq, Repr

/-- Modelled from the spec: `deploy_helpers.invokeForTempFile` (the
temp-file provider collaborator, section 6) — creates a fresh temporary
file, runs the body with it, and guarantees the file is deleted after
the body completes or raises, forwarding the body's result. -/
def invokeForTempFile (body : Nat → TempFS → Except String (List Nat) × TempFS)
    (fs : TempFS) : Except String (List Nat) × TempFS :=
  let tmpId := fs.next
  let r := body tmpId ⟨fs.next + 1, (tmpId, []) :: fs.files⟩
  (r.1, ⟨r.2.next, r.2.files.filter (fun p => p.1 != tmpId)⟩)

/-- Piping the remote stream into the temporary file. -/
def writeTemp (tmpId : Nat) (bytes : List Nat) (fs : TempFS) : TempFS :=
  ⟨fs.next, fs.files.map (fun p => if p.1 = tmpId then (tmpId, bytes) else p)⟩

/-- Reading the staged temporary file back into memory
(`deploy_helpers.readFile`). -/
def readTemp (tmpId : Nat) (fs : TempFS) : Except String (List Nat) :=
  match fs.files.find? (fun p => p.1 == tmpId) with
  | some p => .ok p.2
  | none => .error "ENOENT"

/-- The remote read stream obtained from `client.get`: either it delivers
the file's bytes and ends, or it errors. -/
inductive RemoteStream
  | ok (bytes : List Nat)
  | err (e : String)
deriving DecidableEq, Repr

/-- `SFTPClient.downloadFile` from `src/clients/sftp.ts`: `client.get`
may itself throw, rejecting before any staging.  Otherwise the handler
`STREAM.once('error', COMPLETED)` is attached to the *outer* completion,
and the stream is piped into a fresh temporary file inside
`invokeForTempFile`.  When the stream ends normally, the temporary file
is read back as the result, the body completes, and `invokeForTempFile`
deletes the temporary file before the outer completion fires.  When the
remote stream errors, the outer completion fires with the error directly
while the staging body never settles — a `pipe` destination does not
receive the source's `error`, and `end` never fires after `error` — so
`invokeForTempFile`'s deletion is never triggered and the temporary file
created for staging is left behind. -/
def downloadFile (stream : Except String RemoteStream) (fs : TempFS) :
    Except String (List Nat) × TempFS :=
  match stream with
  | .error e => (.error e, fs)
  | .ok (.err e) => (.error e, ⟨fs.next + 1, (fs.next, []) :: fs.files⟩)
  | .ok (.ok bytes) =>
      invokeForTempFile
        (fun tmpId fsIn =>
          let fs1 := writeTemp tmpId bytes fsIn
          (readTemp tmpId fs1, fs1))
        fs

theorem map_upd_eq (l : List (Nat × List Nat)) (tmpId : Nat) (bytes : List Nat)
    (h : ∀ p ∈ l, p.1 ≠ tmpId) :
    l.map (fun p => if p.1 = tmpId then (tmpId, bytes) else p) = l := by
  induction l with
  | nil => rfl
  | cons a l ih =>
      have ha : a.1 ≠ tmpId := h a (by simp)
      simp only [List.map_cons, if_neg ha]
      rw [ih (fun p hp => h p (by simp [hp]))]

theorem filter_ne_eq (l : List (Nat × List Nat)) (tmpId : Nat)
    (h : ∀ p ∈ l, p.1 ≠ tmpId) :
    l.filter (fun p => p.1 != tmpId) = l := by
  induction l with
  | nil => rfl
  | cons a l ih =>
      have ha : a.1 ≠ tmpId := h a (by simp)
      have ha' : (a.1 != tmpId) = true := by simpa using ha
      simp only [List.filter_cons, ha', if_pos]
      rw [ih (fun p hp => h p (by simp [hp]))]

/-- C5.  What the code actually does: a download of a remote file holding
exactly `bytes` returns exactly those bytes with the temporary staging
file removed; but on the stream-error path the error propagates through
the outer completion while the staging body never settles, so the
temporary file created for staging is *not* removed — at the concrete
failing input (stream error `stream-error` over an initially empty
temporary area) the final state still holds temp file `0`, contradicting
the claim's removed-on-stream-error conclusion. -/
theorem downloadFile_streamError_tempLeak :
    (∀ (fs : TempFS) (bytes : List Nat),
        (∀ p ∈ fs.files, p.1 ≠ fs.next) →
        downloadFile (.ok (.ok bytes)) fs = (.ok bytes, ⟨fs.next + 1, fs.files⟩)) ∧
    (∀ (fs : TempFS) (e : String),
        downloadFile (.ok (.err e)) fs
          = (.error e, ⟨fs.next + 1, (fs.next, []) :: fs.files⟩)) ∧
    downloadFile (.ok (.err "stream-error")) ⟨0, []⟩
      = (.error "stream-error", ⟨1, [(0, [])]⟩) ∧
    (downloadFile (.ok (.err "stream-error")) ⟨0, []⟩).2.files
      ≠ ([] : List (Nat × List Nat)) := by
  refine ⟨?_, ?_, by rfl, by decide⟩
  · intro fs bytes hf
    have h1 := map_upd_eq fs.files fs.next bytes hf
    have h3 := filter_ne_eq fs.files fs.next hf
    simp [downloadFile, invokeForTempFile, writeTemp, readTemp, h1, h3, List.find?_cons]
  · intro fs e
    rfl

/-- Witness for C5's theorem at concrete inputs: three bytes round-trip
through an initially empty temporary area with nothing left behind,
while a stream error leaves the staging file in place. -/
theorem downloadFile_streamError_tempLeak_witness :
    downloadFile (.ok (.ok [1, 2, 3])) ⟨0, []⟩ = (.ok [1, 2, 3], ⟨1, []⟩) ∧
    downloadFile (.ok (.err "boom")) ⟨0, []⟩ = (.error "boom", ⟨1, [(0, [])]⟩) :=
  ⟨downloadFile_streamError_tempLeak.1 ⟨0, []⟩ [1, 2, 3] (by decide),
   downloadFile_streamError_tempLeak.2.1 ⟨0, []⟩ "boom"⟩

/-! ### Host verification in `openConnection` -/

/-- Modelled from the spec: `deploy_helpers.normalizeString` is not among
the provided sources; per the spec (section 4.3) accepted digests and the
computed digest are compared after case/format normalization — lower-cased
and trimmed. -/
def normalizeString (s : String) : String :=
  trimStr (toLowerStr s)

/-- The accepted digest list computed by `openConnection`:
`asArray(opts.hashes).map(normalizeString).filter(x => '' !== x)`. -/
def acceptedHashes (hashes : List String) : List String :=
  (hashes.map normalizeString).filter (fun x => x != "")

/-- The `hostVerifier` closure passed to `client.connect` by
`openConnection`: accept any key when fewer than one accepted digest
remains after normalization and blank-filtering; otherwise accept
exactly the keys whose normalized digest occurs in the accepted list. -/
def hostVerifier (hashes : List String) (keyHash : String) : Bool :=
  let hs := acceptedHashes hashes
  if hs.length < 1 then true
  else hs.contains (normalizeString keyHash)

/-- C4.  The host verifier accepts any key when zero accepted digests are
configured, and otherwise accepts a key exactly when its normalized
digest is present in the accepted set; concretely, an empty digest list
accepts anything, a mismatching digest against `["abc123"]` is rejected,
and a matching digest is accepted modulo case and whitespace. -/
theorem hostVerifier_spec :
    (∀ (hashes : List String) (keyHash : String),
        hostVerifier hashes keyHash =
          ((acceptedHashes hashes).isEmpty ||
            (acceptedHashes hashes).contains (normalizeString keyHash))) ∧
    hostVerifier [] "anything" = true ∧
    hostVerifier ["abc123"] "ffffff" = false ∧
    hostVerifier ["abc123"] " ABC123 " = true := by
  refine ⟨?_, rfl, by decide, by decide⟩
  intro hashes keyHash
  simp only [hostVerifier]
  cases h : acceptedHashes hashes with
  | nil => simp
  | cons a l => simp [List.isEmpty]

/-- C10.  A non-empty configured digest list whose entries all normalize
to the empty string is filtered down to nothing before the
zero-accepted-digests check, so the verifier accepts every host key. -/
theorem hostVerifier_blankHashes_acceptAll
    (hashes : List String) (keyHash : String)
    (_hne : hashes ≠ [])
    (hblank : ∀ h ∈ hashes, normalizeString h = "") :
    hostVerifier hashes keyHash = true := by
  have hacc : acceptedHashes hashes = [] := by
    unfold acceptedHashes
    rw [List.filter_eq_nil_iff]
    intro a ha
    simp only [List.mem_map] at ha
    obtain ⟨b, hb, rfl⟩ := ha
    simp [hblank b hb]
  simp [hostVerifier, hacc]

/-- Witness for C10 at concrete inputs: hashes `["", "   "]` are
non-empty but blank, and an arbitrary digest is accepted. -/
theorem hostVerifier_blankHashes_acceptAll_witness :
    hostVerifier ["", "   "] "deadbeef" = true :=
  hostVerifier_blankHashes_acceptAll ["", "   "] "deadbeef" (by decide) (by decide)

end SftpSpec
